import Mathlib

/-!
Verification of the Care-Alarm dashboard updater (`update-dashboard.py`).

The script is a linear fetch-format-replace pipeline.  We shallowly embed
its pure parts: Python strings are modelled as `List Char` (sequences of
code points, matching Python `str` semantics for indexing, slicing, `in`,
`find` and `replace`), Python ints as `Nat`/`Int`, Python floats as `ℚ`,
and the fallible dynamic field accesses (`dict.get` returning `None`) as
`Option`.  The HTTP layer is modelled as oracles: the per-repository
workflow-run and release fetches become functions from the repository
full name to the already-parsed result list (the API client returns `[]`
on any non-200 response, so a failed fetch is just an empty list).
-/

set_option maxRecDepth 200000

namespace Dashboard

/-- Python strings, as lists of code points. -/
abbrev Str := List Char

/-- Turn a Lean string literal into the `Str` model. -/
def chars (s : String) : Str := s.data

/-- Render a natural number the way Python's str.format does. -/
def natToStr (n : Nat) : Str := chars (toString n)

/-- Render an integer the way Python's str.format does (`-1` → "-1"). -/
def intToStr (n : Int) : Str := chars (toString n)

/-! ### Calendar arithmetic

`datetime.fromisoformat` / `strftime` over the proleptic Gregorian
calendar, via the standard civil-from-days / days-from-civil conversions.
Timestamps are seconds since the Unix epoch. -/

/-- Days since 1970-01-01 of a civil date (proleptic Gregorian). -/
def daysFromCivil (y m d : Int) : Int :=
  let y' := if m ≤ 2 then y - 1 else y
  let era := Int.fdiv y' 400
  let yoe := y' - era * 400
  let mp := if m > 2 then m - 3 else m + 9
  let doy := (153 * mp + 2) / 5 + d - 1
  let doe := yoe * 365 + yoe / 4 - yoe / 100 + doy
  era * 146097 + doe - 719468

/-- Civil date (year, month, day) of a count of days since 1970-01-01. -/
def civilFromDays (z : Int) : Int × Int × Int :=
  let z' := z + 719468
  let era := Int.fdiv z' 146097
  let doe := z' - era * 146097
  let yoe := (doe - doe / 1460 + doe / 36524 - doe / 146096) / 365
  let y := yoe + era * 400
  let doy := doe - (365 * yoe + yoe / 4 - yoe / 100)
  let mp := (5 * doy + 2) / 153
  let d := doy - (153 * mp + 2) / 5 + 1
  let m := if mp < 10 then mp + 3 else mp - 9
  (if m ≤ 2 then y + 1 else y, m, d)

/-- Numeric value of an ASCII digit. -/
def digitVal (c : Char) : Int := (c.toNat : Int) - 48

/-- Value of the length-`len` digit field starting at index `i`. -/
def numAt (s : Str) (i len : Nat) : Int :=
  ((s.drop i).take len).foldl (fun a c => a * 10 + digitVal c) 0

/-- `datetime.fromisoformat` on the GitHub timestamps
`YYYY-MM-DDTHH:MM:SSZ` (after the script's `replace('Z', '+00:00')`),
as seconds since the epoch.  The script performs no error handling here;
a malformed string would raise, and we only evaluate this on well-formed
timestamps. -/
def parseIso (s : Str) : Int :=
  daysFromCivil (numAt s 0 4) (numAt s 5 2) (numAt s 8 2) * 86400
    + numAt s 11 2 * 3600 + numAt s 14 2 * 60 + numAt s 17 2

/-- `(now - t).days`: Python's `timedelta.days` floors towards `-∞`. -/
def dayDiff (now t : Int) : Int := Int.fdiv (now - t) 86400

/-- Two-digit zero padding (`%m`, `%d`, `%H`, `%M`, `%S`). -/
def pad2 (n : Int) : Str := if n < 10 then '0' :: intToStr n else intToStr n

/-- `strftime('%Y-%m-%d %H:%M:%S UTC')` on a naive datetime holding `t`
seconds since the epoch (`%Y` needs no padding for the years in range). -/
def fmtLastUpdated (t : Int) : Str :=
  let days := Int.fdiv t 86400
  let secs := t - days * 86400
  let c := civilFromDays days
  intToStr c.1 ++ chars "-" ++ pad2 c.2.1 ++ chars "-" ++ pad2 c.2.2
    ++ chars " " ++ pad2 (secs / 3600) ++ chars ":" ++ pad2 ((secs % 3600) / 60)
    ++ chars ":" ++ pad2 (secs % 60) ++ chars " UTC"

/-- The value written over the `<!-- LAST_UPDATED -->` marker:
`datetime.now().strftime('%Y-%m-%d %H:%M:%S UTC')`.  `datetime.now()` is
the naive *local* wall-clock time, i.e. the UTC instant shifted by the
process's timezone offset, even though the format labels it `UTC`. -/
def lastUpdatedValue (utcNow : Nat) (tzOffset : Int) : Str :=
  fmtLastUpdated ((utcNow : Int) + tzOffset)

/-! ### Python string search and replacement -/

/-- `haystack.find(pat)`: index of the first occurrence of `pat`,
`none` for Python's `-1`. -/
def strFind (pat : Str) : Str → Option Nat
  | [] => if pat.isPrefixOf [] then some 0 else none
  | c :: t =>
    if pat.isPrefixOf (c :: t) then some 0
    else (strFind pat t).map (· + 1)

/-- `pat in haystack`: literal, case-sensitive substring test. -/
def occurs (pat s : Str) : Bool := (strFind pat s).isSome

/-- Fuel-indexed worker for `replaceAll`; the fuel (any upper bound on
the length of the scanned string) only makes the recursion structural. -/
def replaceAllF (pat rep : Str) : Nat → Str → Str
  | _, [] => []
  | 0, s => s
  | f + 1, c :: t =>
    if pat ≠ [] ∧ pat.isPrefixOf (c :: t) then
      rep ++ replaceAllF pat rep f ((c :: t).drop pat.length)
    else
      c :: replaceAllF pat rep f t

/-- `s.replace(pat, rep)`: replace every non-overlapping occurrence,
scanning left to right (for non-empty `pat`). -/
def replaceAll (pat rep s : Str) : Str := replaceAllF pat rep s.length s

/-! ### Ordering on Python strings -/

/-- Python's `<=` on strings: lexicographic by code point. -/
def strLe : Str → Str → Bool
  | [], _ => true
  | _ :: _, [] => false
  | a :: as, b :: bs => if a = b then strLe as bs else decide (a < b)

/-- Python's `<` on strings. -/
def strLt (a b : Str) : Bool := strLe a b && decide (¬ a = b)

/-! ### Stable descending sort

`list.sort(key=..., reverse=True)` and `sorted(..., reverse=True)` are
stable descending sorts: elements with equal keys keep their input order.
A stable descending sort is uniquely determined by the order, so this
insertion-based model produces exactly the list CPython's sort does.
`le x y` reads "the key of `x` is ≤ the key of `y`". -/

/-- Insert `x` into a descending-sorted list, after all elements whose
key is ≥ the key of `x` (which keeps equal keys in arrival order). -/
def insertDesc (le : α → α → Bool) (x : α) : List α → List α
  | [] => [x]
  | y :: ys => if le x y then y :: insertDesc le x ys else x :: y :: ys

/-- Stable descending sort by repeated insertion, left to right. -/
def sortDesc (le : α → α → Bool) (l : List α) : List α :=
  l.foldl (fun acc x => insertDesc le x acc) []

/-! ### Data model

The JSON objects the script consumes.  A field the API serves as
`string or null` is `Option Str` under its key; where the script uses
`dict.get` with a default, key absence also matters, so those fields are
`Option (Option Str)`: `none` = key absent, `some none` = key present
with JSON `null`, `some (some s)` = key present with a string. -/

/-- An exception escaping the script (here only the `TypeError` raised
by slicing/`len` on `None`). -/
inductive PyErr where
  | typeError
deriving DecidableEq, Repr

structure Repo where
  name : Str
  full_name : Str
  description : Option (Option Str)
  language : Option (Option Str)
  updated_at : Str
  stargazers_count : Nat
  isPrivate : Bool
  html_url : Str
deriving DecidableEq, Repr

structure Member where
  login : Str
  avatar_url : Str
  html_url : Str
deriving DecidableEq, Repr

structure WorkflowRun where
  name : Str
  head_branch : Str
  status : Option Str
  conclusion : Option Str
  created_at : Str
deriving DecidableEq, Repr

structure Release where
  tag_name : Str
  name : Option (Option Str)
  html_url : Str
  published_at : Str
  prerelease : Bool
deriving DecidableEq, Repr

/-- The `release_data` dict assembled in `format_latest_releases`. -/
structure ReleaseData where
  repo : Str
  tag : Str
  name : Option Str
  url : Str
  published_at : Str
  prerelease : Bool
deriving DecidableEq, Repr

/-! ### Formatters -/

/-- `repo.get('description', 'No description')`: the default only fires
when the key is absent; a JSON `null` comes through as `None`. -/
def descValue (r : Repo) : Option Str :=
  match r.description with
  | none => some (chars "No description")
  | some v => v

/-- `repo.get('language', 'Unknown')`, as later rendered inside an
f-string: an absent key gives the default, a `null` prints as `None`. -/
def langValue (r : Repo) : Str :=
  match r.language with
  | none => chars "Unknown"
  | some none => chars "None"
  | some (some l) => l

/-- `description[:80] + ('...' if len(description) > 80 else '')`. -/
def activityDescription (d : Str) : Str :=
  d.take 80 ++ (if 80 < d.length then chars "..." else [])

/-- The `"today"` / `"yesterday"` / `f"{n} days ago"` bucketing of
`format_repository_activity`. -/
def timeAgoLong (n : Int) : Str :=
  if n = 0 then chars "today"
  else if n = 1 then chars "yesterday"
  else intToStr n ++ chars " days ago"

/-- The `"today"` / `"yesterday"` / `f"{n}d ago"` bucketing shared by
`format_build_status` and `format_latest_releases`. -/
def timeAgoShort (n : Int) : Str :=
  if n = 0 then chars "today"
  else if n = 1 then chars "yesterday"
  else intToStr n ++ chars "d ago"

/-- One activity entry, given the already-resolved description. -/
def activityLine (now : Int) (r : Repo) (d : Str) : Str :=
  let timeAgo := dayDiff now (parseIso r.updated_at)
  let emoji :=
    if timeAgo ≤ 1 then chars "🔥" else if timeAgo ≤ 7 then chars "📝" else chars "📚"
  emoji ++ chars " **[" ++ r.name ++ chars "](" ++ r.html_url ++ chars ")** ("
    ++ langValue r ++ chars ") - " ++ activityDescription d
    ++ chars "\n   ⭐ " ++ natToStr r.stargazers_count ++ chars " stars • Updated "
    ++ timeAgoLong timeAgo

/-- `format_repository_activity`: errors with a `TypeError` when a
repository's `description` key holds `null` (slicing `None`). -/
def format_repository_activity (now : Int) (repos : List Repo) : Except PyErr Str :=
  if repos = [] then .ok (chars "No recent activity found.")
  else do
    let lines ← (repos.take 6).mapM fun r =>
      match descValue r with
      | none => .error .typeError
      | some d => .ok (activityLine now r d)
    .ok (List.intercalate (chars "\n\n") lines)

/-- `run.get('conclusion') or run.get('status')`: Python `or` moves past
`None` and the empty string. -/
def truthyOr (a b : Option Str) : Option Str :=
  match a with
  | some s => if s = [] then b else some s
  | none => b

/-- The five-way emoji lookup with `'❓'` fallback (a `None` key also
falls through to the default). -/
def statusEmoji (v : Option Str) : Str :=
  if v = some (chars "success") then chars "✅"
  else if v = some (chars "failure") then chars "❌"
  else if v = some (chars "cancelled") then chars "⚠️"
  else if v = some (chars "in_progress") then chars "🟡"
  else chars "❓"

/-- One build line of `format_build_status`. -/
def buildLine (now : Int) (run : WorkflowRun) : Str :=
  chars "   " ++ statusEmoji (truthyOr run.conclusion run.status) ++ chars " "
    ++ run.name ++ chars " on `" ++ run.head_branch ++ chars "` • "
    ++ timeAgoShort (dayDiff now (parseIso run.created_at))

/-- `format_build_status`.  `runsOf` is the API-client oracle for
`get_workflow_runs(full_name, 2)`; the `take 2` is the `per_page=2`
bound of that fetch. -/
def format_build_status (runsOf : Str → List WorkflowRun) (now : Int)
    (repos : List Repo) : Str :=
  let build_info := (repos.take 4).filterMap fun r =>
    let runs := (runsOf r.full_name).take 2
    if runs = [] then none
    else some (chars "**" ++ r.name ++ chars "**\n"
      ++ List.intercalate (chars "\n") (runs.map (buildLine now)))
  if build_info = [] then chars "No recent builds found."
  else List.intercalate (chars "\n\n") build_info

/-- `format_team_members`. -/
def format_team_members (members : List Member) : Str :=
  if members = [] then chars "No team members found."
  else List.intercalate (chars " ") ((members.take 8).map fun m =>
    chars "[<img src='" ++ m.avatar_url ++ chars "' width='30' height='30' alt='"
      ++ m.login ++ chars "'>](" ++ m.html_url ++ chars ")")

/-- `format_active_repos`. -/
def format_active_repos (repos : List Repo) : Str :=
  if repos = [] then chars "No repositories found."
  else List.intercalate (chars "\n") (repos.map fun r =>
    (if r.isPrivate then chars "🔒" else chars "🌐") ++ chars " **[" ++ r.name
      ++ chars "](" ++ r.html_url ++ chars ")** (" ++ langValue r ++ chars ") - ⭐ "
      ++ natToStr r.stargazers_count)

/-- The `release_data` record built per fetched release. -/
def releaseDataOf (r : Repo) (rel : Release) : ReleaseData :=
  { repo := r.name
    tag := rel.tag_name
    name := match rel.name with
            | none => some rel.tag_name
            | some v => v
    url := rel.html_url
    published_at := rel.published_at
    prerelease := rel.prerelease }

/-- The merged `all_releases` list (first 5 repos, up to 2 releases
each; `relOf` is the API-client oracle for `get_repo_releases`). -/
def allReleases (relOf : Str → List Release) (repos : List Repo) : List ReleaseData :=
  (repos.take 5).flatMap fun r => ((relOf r.full_name).take 2).map (releaseDataOf r)

/-- `all_releases.sort(key=lambda x: x['published_at'], reverse=True)`:
stable descending sort on the timestamp string. -/
def sortedReleases (relOf : Str → List Release) (repos : List Repo) : List ReleaseData :=
  sortDesc (fun a b => strLe a.published_at b.published_at) (allReleases relOf repos)

/-- One rendered release entry. -/
def releaseLine (now : Int) (rd : ReleaseData) : Str :=
  (if rd.prerelease then chars "🧪" else chars "🚀")
    ++ chars " **[" ++ rd.repo ++ chars " " ++ rd.tag ++ chars "](" ++ rd.url
    ++ chars ")** - " ++ timeAgoShort (dayDiff now (parseIso rd.published_at))

/-- `format_latest_releases`. -/
def format_latest_releases (relOf : Str → List Release) (now : Int)
    (repos : List Repo) : Str :=
  let all := sortedReleases relOf repos
  if all = [] then chars "No recent releases found."
  else List.intercalate (chars "\n") ((all.take 5).map (releaseLine now))

/-- The `if repo.get('language'):` truthiness filter: a declared
language is a present, non-null, non-empty string. -/
def declaredLang (r : Repo) : Option Str :=
  match r.language with
  | some (some l) => if l = [] then none else some l
  | _ => none

/-- The multiset of declared languages, in repository order. -/
def langsOf (repos : List Repo) : List Str := repos.filterMap declaredLang

/-- Fuel-indexed worker for `firstDedup` (the fuel, any upper bound on
the list length, only makes the recursion structural). -/
def firstDedupF : Nat → List Str → List Str
  | _, [] => []
  | 0, l => l
  | f + 1, x :: xs => x :: firstDedupF f (xs.filter fun y => decide (¬ y = x))

/-- First-occurrence deduplication: the key order of a `defaultdict`
filled by a left-to-right loop. -/
def firstDedup (l : List Str) : List Str := firstDedupF l.length l

/-- `language_stats.items()`: languages with their counts, in insertion
order. -/
def langCounts (repos : List Repo) : List (Str × Nat) :=
  (firstDedup (langsOf repos)).map fun l => (l, (langsOf repos).count l)

/-- `sorted(language_stats.items(), key=lambda x: x[1], reverse=True)`. -/
def sortedLanguages (repos : List Repo) : List (Str × Nat) :=
  sortDesc (fun a b => decide (a.2 ≤ b.2)) (langCounts repos)

/-- `(count / len(repos)) * 100`, the Python float arithmetic modelled
exactly over `ℚ`. -/
def percentOf (repos : List Repo) (count : Nat) : ℚ :=
  ((count : ℚ) / (repos.length : ℚ)) * 100

/-- Every language's percentage (over all languages, not only the eight
that get rendered), in the sorted order the loop traverses. -/
def orgLanguagePercents (repos : List Repo) : List (Str × ℚ) :=
  (sortedLanguages repos).map fun p => (p.1, percentOf repos p.2)

/-- The sum of all the histogram's percentages. -/
def sumLanguagePercents (repos : List Repo) : ℚ :=
  ((orgLanguagePercents repos).map Prod.snd).sum

/-- `f"{percentage:.1f}"`: one decimal, round half to even (models
CPython's float formatting for the in-range values that occur here). -/
def fmtPct (q : ℚ) : Str :=
  let m : ℚ := q * 10
  let fl : Int := Int.floor m
  let r : ℚ := m - (fl : ℚ)
  let n : Int := if 1/2 < r ∨ (r = 1/2 ∧ fl % 2 = 1) then fl + 1 else fl
  intToStr (n / 10) ++ chars "." ++ natToStr (n % 10).toNat

/-- `format_org_languages`. -/
def format_org_languages (repos : List Repo) : Str :=
  if langsOf repos = [] then chars "No language data available."
  else List.intercalate (chars " • ") (((sortedLanguages repos).take 8).map fun p =>
    chars "**" ++ p.1 ++ chars "** (" ++ natToStr p.2 ++ chars " repos, "
      ++ fmtPct (percentOf repos p.2) ++ chars "%)")

/-! ### Document updater -/

def mACTIVITY : Str := chars "<!-- RECENT_ACTIVITY:START -->"
def mBUILD : Str := chars "<!-- BUILD_STATUS:START -->"
def mTEAM : Str := chars "<!-- TEAM_MEMBERS:START -->"
def mACTIVE : Str := chars "<!-- ACTIVE_REPOS:START -->"
def mRELEASES : Str := chars "<!-- LATEST_RELEASES:START -->"
def mLANGUAGES : Str := chars "<!-- ORG_LANGUAGES:START -->"
def mLAST : Str := chars "<!-- LAST_UPDATED -->"

/-- The six paired start markers, in the dict order of `replacements`. -/
def pairedStartMarkers : List Str :=
  [mACTIVITY, mBUILD, mTEAM, mACTIVE, mRELEASES, mLANGUAGES]

/-- `marker.replace('START', 'END')`. -/
def endMarkerOf (m : Str) : Str := replaceAll (chars "START") (chars "END") m

/-- `marker.endswith('START -->')`. -/
def isStartMarker (m : Str) : Bool := (chars "START -->").isSuffixOf m

/-- The body of the replacement loop for one `(marker, replacement)`
pair: skip silently when the marker is absent; for a paired marker
splice the fragment between the first occurrences of the start and end
markers; for the unpaired marker use `str.replace`. -/
def applyReplacement (content : Str) (mr : Str × Str) : Str :=
  if occurs mr.1 content then
    if isStartMarker mr.1 then
      match strFind mr.1 content, strFind (endMarkerOf mr.1) content with
      | some si, some ei =>
        content.take (si + mr.1.length) ++ chars "\n" ++ mr.2 ++ chars "\n"
          ++ content.drop ei
      | _, _ => content
    else replaceAll mr.1 mr.2 content
  else content

/-- The `replacements` dict, in insertion order. -/
def replacementsList (acts builds team actv rels langs ts : Str) : List (Str × Str) :=
  [(mACTIVITY, acts), (mBUILD, builds), (mTEAM, team), (mACTIVE, actv),
   (mRELEASES, rels), (mLANGUAGES, langs), (mLAST, ts)]

/-- The whole replacement loop of `update_readme` over a document. -/
def spliceContent (acts builds team actv rels langs ts : Str) (doc : Str) : Str :=
  (replacementsList acts builds team actv rels langs ts).foldl applyReplacement doc

/-! ### Orchestrator -/

/-- One run's inputs: the fetched data (the API client turns any
non-200 response into an empty list), the dashboard document (`none`
when `README.md` does not exist), and the clock (the UTC instant plus
the process's local timezone offset, both in seconds). -/
structure RunInput where
  repos : List Repo
  members : List Member
  runsOf : Str → List WorkflowRun
  relOf : Str → List Release
  readme : Option Str
  nowUtc : Nat
  tzOffset : Int

/-- `update_readme`: formats all sections (an uncaught `TypeError`
propagates), then returns `(False, no write)` when the document is
missing, else `(True, rewritten document)`. -/
def runUpdate (inp : RunInput) : Except PyErr (Bool × Option Str) := do
  let acts ← format_repository_activity (inp.nowUtc : Int) inp.repos
  match inp.readme with
  | none => .ok (false, none)
  | some doc =>
    .ok (true, some (spliceContent acts
      (format_build_status inp.runsOf (inp.nowUtc : Int) inp.repos)
      (format_team_members inp.members)
      (format_active_repos inp.repos)
      (format_latest_releases inp.relOf (inp.nowUtc : Int) inp.repos)
      (format_org_languages inp.repos)
      (lastUpdatedValue inp.nowUtc inp.tzOffset) doc))

/-- The process exit status: `sys.exit(0 if success else 1)`, and a
Python process that dies on an uncaught exception also exits with 1. -/
def exitCode (inp : RunInput) : Nat :=
  match runUpdate inp with
  | .ok (true, _) => 0
  | .ok (false, _) => 1
  | .error _ => 1

/-! ### Concrete fixtures

Small concrete repository lists, releases and documents used to
evaluate the model at explicit inputs. -/

/-- A repository declaring the language `Python`. -/
def cxRepoPython : Repo :=
  ⟨chars "alpha", chars "Care-Alarm/alpha", some (some (chars "a fine repo")),
    some (some (chars "Python")), chars "2026-10-10T00:00:00Z", 3, false,
    chars "https://e/alpha"⟩

/-- A repository whose `language` key holds JSON `null`. -/
def cxRepoNullLang : Repo :=
  ⟨chars "beta", chars "Care-Alarm/beta", some (some (chars "b")),
    some none, chars "2026-10-11T00:00:00Z", 0, true, chars "https://e/beta"⟩

/-- A repository whose `description` key holds JSON `null`: slicing it
raises a `TypeError` in the activity formatter. -/
def cxRepoNullDesc : Repo :=
  ⟨chars "gamma", chars "Care-Alarm/gamma", some none,
    some (some (chars "C")), chars "2026-10-11T00:00:00Z", 0, true,
    chars "https://e/gamma"⟩

def cxRelOld : Release :=
  ⟨chars "v1", none, chars "u1", chars "2024-01-01T00:00:00Z", false⟩

def cxRelNew : Release :=
  ⟨chars "v2", none, chars "u2", chars "2024-03-01T00:00:00Z", true⟩

/-- Published at the same instant as `cxRelNew`. -/
def cxRelTie : Release :=
  ⟨chars "v3", none, chars "u3", chars "2024-03-01T00:00:00Z", false⟩

/-- Release oracle: `alpha` has an older release listed before a newer
one (out-of-order input), `beta` has a release tied with `alpha`'s
newest. -/
def cxRelOf : Str → List Release := fun s =>
  if s = chars "Care-Alarm/alpha" then [cxRelOld, cxRelNew]
  else if s = chars "Care-Alarm/beta" then [cxRelTie]
  else []

/-- An 81-character description. -/
def cxLongDesc : Str := List.replicate 81 'a'

/-- A document holding the timestamp marker twice. -/
def cxDocTwin : Str := chars "<!-- LAST_UPDATED -->x<!-- LAST_UPDATED -->"

/-- A run whose document exists but whose repository list makes the
activity formatter raise. -/
def cxBadInput : RunInput :=
  ⟨[cxRepoNullDesc], [], fun _ => [], fun _ => [], some (chars "# dashboard"),
    1791806400, 0⟩

/-- A run with healthy data but no document. -/
def cxMissInput : RunInput :=
  ⟨[cxRepoPython], [], fun _ => [], fun _ => [], none, 1791806400, 0⟩

/-! ### Lemmas about substring search and replacement -/

theorem isPrefixOf_nil_iff {pat : Str} : pat.isPrefixOf [] = true ↔ pat = [] := by
  cases pat <;> simp [List.isPrefixOf]

theorem strFind_nil {pat : Str} (h : pat ≠ []) : strFind pat [] = none := by
  simp only [strFind]
  rw [if_neg]
  intro hp
  exact h (isPrefixOf_nil_iff.mp hp)

theorem occurs_cons {pat : Str} {c : Char} {t : Str} :
    occurs pat (c :: t) = (pat.isPrefixOf (c :: t) || occurs pat t) := by
  simp only [occurs, strFind]
  by_cases h : pat.isPrefixOf (c :: t) <;> simp [h]

theorem occurs_of_isPrefixOf {pat s : Str} (h : pat.isPrefixOf s = true) :
    occurs pat s = true := by
  cases s with
  | nil => simp [occurs, strFind, h]
  | cons c t => simp [occurs, strFind, h]

/-- A string occurs anywhere it sits between two pieces. -/
theorem occurs_mid (pat x y : Str) : occurs pat (x ++ pat ++ y) = true := by
  induction x with
  | nil =>
    apply occurs_of_isPrefixOf
    rw [List.isPrefixOf_iff_prefix]
    simp [List.prefix_append]
  | cons c x' ih =>
    rw [List.cons_append, List.cons_append, occurs_cons, ih]
    simp

/-- The fuel of `replaceAllF` is irrelevant once it covers the string. -/
theorem replaceAllF_congr (pat rep : Str) :
    ∀ (f₁ : Nat) (s : Str) (f₂ : Nat), s.length ≤ f₁ → s.length ≤ f₂ →
      replaceAllF pat rep f₁ s = replaceAllF pat rep f₂ s := by
  intro f₁
  induction f₁ with
  | zero =>
    intro s f₂ h₁ _
    have hs : s = [] := List.eq_nil_of_length_eq_zero (Nat.le_zero.mp h₁)
    subst hs
    cases f₂ <;> simp [replaceAllF]
  | succ g ih =>
    intro s f₂ h₁ h₂
    cases s with
    | nil => cases f₂ <;> simp [replaceAllF]
    | cons c t =>
      cases f₂ with
      | zero => simp at h₂
      | succ g₂ =>
        simp only [replaceAllF]
        by_cases hc : pat ≠ [] ∧ pat.isPrefixOf (c :: t)
        · rw [if_pos hc, if_pos hc]
          have hp : 1 ≤ pat.length := by
            have := hc.1
            cases pat with
            | nil => exact absurd rfl this
            | cons a b => simp
          have hd : ((c :: t).drop pat.length).length ≤ g := by
            simp only [List.length_drop, List.length_cons]
            simp only [List.length_cons] at h₁
            omega
          have hd₂ : ((c :: t).drop pat.length).length ≤ g₂ := by
            simp only [List.length_drop, List.length_cons]
            simp only [List.length_cons] at h₂
            omega
          rw [ih _ g₂ hd hd₂]
        · rw [if_neg hc, if_neg hc]
          simp only [List.length_cons] at h₁ h₂
          rw [ih t g₂ (by omega) (by omega)]

theorem replaceAll_nil (pat rep : Str) : replaceAll pat rep [] = [] := rfl

/-- The recursion equation of `str.replace`, fuel hidden. -/
theorem replaceAll_cons (pat rep : Str) (c : Char) (t : Str) :
    replaceAll pat rep (c :: t) =
      if pat ≠ [] ∧ pat.isPrefixOf (c :: t) then
        rep ++ replaceAll pat rep ((c :: t).drop pat.length)
      else
        c :: replaceAll pat rep t := by
  show replaceAllF pat rep (t.length + 1) (c :: t) = _
  simp only [replaceAllF]
  by_cases hc : pat ≠ [] ∧ pat.isPrefixOf (c :: t)
  · rw [if_pos hc, if_pos hc]
    have hp : 1 ≤ pat.length := by
      have := hc.1
      cases pat with
      | nil => exact absurd rfl this
      | cons a b => simp
    rw [replaceAllF_congr pat rep t.length _ ((c :: t).drop pat.length).length
      (by simp only [List.length_drop, List.length_cons]; omega) le_rfl]
    rfl
  · rw [if_neg hc, if_neg hc]
    rfl

/-- Replacement is the identity where the pattern does not occur. -/
theorem replaceAll_of_not_occurs {pat s : Str} (rep : Str)
    (h : occurs pat s = false) : replaceAll pat rep s = s := by
  induction s with
  | nil => exact replaceAll_nil pat rep
  | cons c t ih =>
    rw [occurs_cons, Bool.or_eq_false_iff] at h
    rw [replaceAll_cons, if_neg (by simp [h.1]), ih h.2]

/-- `str.replace` rewrites the first occurrence and keeps scanning after
it: every occurrence is replaced, left to right. -/
theorem replaceAll_split {pat : Str} (rep : Str) (hne : pat ≠ []) :
    ∀ (s : Str) (i : Nat), strFind pat s = some i →
      replaceAll pat rep s =
        s.take i ++ rep ++ replaceAll pat rep (s.drop (i + pat.length)) := by
  intro s
  induction s with
  | nil =>
    intro i h
    rw [strFind_nil hne] at h
    exact absurd h (by simp)
  | cons c t ih =>
    intro i h
    simp only [strFind] at h
    by_cases hp : pat.isPrefixOf (c :: t)
    · rw [if_pos hp] at h
      obtain rfl : i = 0 := by simpa using h.symm
      rw [replaceAll_cons, if_pos ⟨hne, hp⟩]
      simp
    · rw [if_neg hp] at h
      obtain ⟨j, hj, rfl⟩ : ∃ j, strFind pat t = some j ∧ i = j + 1 := by
        cases hf : strFind pat t with
        | none => rw [hf] at h; exact absurd h (by simp)
        | some j => rw [hf] at h; exact ⟨j, rfl, by simpa using h.symm⟩
      rw [replaceAll_cons, if_neg (by simp [hp]), ih j hj]
      have hdrop : (c :: t).drop (j + 1 + pat.length) = t.drop (j + pat.length) := by
        have : j + 1 + pat.length = (j + pat.length) + 1 := by omega
        rw [this, List.drop_succ_cons]
      rw [hdrop]
      simp [List.take_succ_cons]

/-! ### Lemmas about the stable descending sort -/

theorem mem_insertDesc {le : α → α → Bool} {x z : α} :
    ∀ {l : List α}, z ∈ insertDesc le x l ↔ z = x ∨ z ∈ l := by
  intro l
  induction l with
  | nil => simp [insertDesc]
  | cons y ys ih =>
    simp only [insertDesc]
    by_cases h : le x y
    · rw [if_pos h]
      simp only [List.mem_cons, ih]
      tauto
    · rw [if_neg h]
      simp only [List.mem_cons]

theorem pairwise_insertDesc {le : α → α → Bool}
    (htot : ∀ a b, le a b = true ∨ le b a = true)
    (htrans : ∀ a b c, le a b = true → le b c = true → le a c = true)
    (x : α) : ∀ {l : List α}, l.Pairwise (fun a b => le b a = true) →
      (insertDesc le x l).Pairwise (fun a b => le b a = true) := by
  intro l
  induction l with
  | nil => simp [insertDesc]
  | cons y ys ih =>
    intro hp
    rw [List.pairwise_cons] at hp
    simp only [insertDesc]
    by_cases h : le x y
    · rw [if_pos h]
      rw [List.pairwise_cons]
      refine ⟨?_, ih hp.2⟩
      intro z hz
      rcases mem_insertDesc.mp hz with rfl | hz'
      · exact h
      · exact hp.1 z hz'
    · rw [if_neg h]
      have hyx : le y x = true := (htot x y).resolve_left (by simpa using h)
      rw [List.pairwise_cons]
      refine ⟨?_, List.pairwise_cons.mpr hp⟩
      intro z hz
      rcases List.mem_cons.mp hz with rfl | hz'
      · exact hyx
      · exact htrans z y x (hp.1 z hz') hyx

/-- The output of the stable descending sort is descending: every
element is `le`-below all elements before it. -/
theorem sortDesc_pairwise {le : α → α → Bool}
    (htot : ∀ a b, le a b = true ∨ le b a = true)
    (htrans : ∀ a b c, le a b = true → le b c = true → le a c = true)
    (l : List α) : (sortDesc le l).Pairwise (fun a b => le b a = true) := by
  suffices h : ∀ (acc : List α), acc.Pairwise (fun a b => le b a = true) →
      (l.foldl (fun acc x => insertDesc le x acc) acc).Pairwise
        (fun a b => le b a = true) by
    exact h [] (by simp)
  induction l with
  | nil => intro acc hacc; simpa using hacc
  | cons x xs ih =>
    intro acc hacc
    exact ih _ (pairwise_insertDesc htot htrans x hacc)

theorem insertDesc_perm (le : α → α → Bool) (x : α) :
    ∀ (l : List α), List.Perm (insertDesc le x l) (x :: l) := by
  intro l
  induction l with
  | nil => simp [insertDesc]
  | cons y ys ih =>
    simp only [insertDesc]
    by_cases h : le x y
    · rw [if_pos h]
      exact (ih.cons y).trans (List.Perm.swap x y ys)
    · rw [if_neg h]

/-- The sort permutes its input. -/
theorem sortDesc_perm (le : α → α → Bool) (l : List α) :
    List.Perm (sortDesc le l) l := by
  suffices h : ∀ (acc : List α),
      List.Perm (l.foldl (fun acc x => insertDesc le x acc) acc) (l ++ acc) by
    simpa using h []
  induction l with
  | nil => intro acc; simp
  | cons x xs ih =>
    intro acc
    refine ((ih (insertDesc le x acc)).trans ?_)
    have h1 : List.Perm (xs ++ insertDesc le x acc) (xs ++ (x :: acc)) :=
      List.Perm.append_left xs (insertDesc_perm le x acc)
    have h2 : List.Perm (xs ++ (x :: acc)) (x :: (xs ++ acc)) := List.perm_middle
    exact (h1.trans h2)

/-! ### The lexicographic string order is total and transitive -/

theorem strLe_total : ∀ (a b : Str), strLe a b = true ∨ strLe b a = true := by
  intro a
  induction a with
  | nil => intro b; left; simp [strLe]
  | cons x xs ih =>
    intro b
    cases b with
    | nil => right; simp [strLe]
    | cons y ys =>
      by_cases hxy : x = y
      · subst hxy
        simpa [strLe] using ih ys
      · rcases lt_or_gt_of_ne hxy with h | h
        · left; simp [strLe, hxy, h]
        · right
          simp [strLe, Ne.symm hxy, h]

theorem strLe_trans : ∀ (a b c : Str),
    strLe a b = true → strLe b c = true → strLe a c = true := by
  intro a
  induction a with
  | nil => intro b c _ _; simp [strLe]
  | cons x xs ih =>
    intro b c hab hbc
    cases b with
    | nil => simp [strLe] at hab
    | cons y ys =>
      cases c with
      | nil => simp [strLe] at hbc
      | cons z zs =>
        by_cases hxy : x = y <;> by_cases hyz : y = z
        · subst hxy; subst hyz
          simp only [strLe, if_pos rfl] at hab hbc ⊢
          exact ih ys zs hab hbc
        · subst hxy
          simp only [strLe, if_pos rfl] at hab
          simp only [strLe, if_neg hyz] at hbc ⊢
          exact hbc
        · subst hyz
          simp only [strLe, if_neg hxy] at hab ⊢
          exact hab
        · simp only [strLe, if_neg hxy] at hab
          simp only [strLe, if_neg hyz] at hbc
          have hxz : x < z := lt_trans (of_decide_eq_true hab) (of_decide_eq_true hbc)
          have hne : ¬ x = z := ne_of_lt hxz
          simp [strLe, hne, hxz]

/-! ### Lemmas about the language counting -/

/-- The fuel of `firstDedupF` is irrelevant once it covers the list. -/
theorem firstDedupF_congr :
    ∀ (f₁ : Nat) (l : List Str) (f₂ : Nat), l.length ≤ f₁ → l.length ≤ f₂ →
      firstDedupF f₁ l = firstDedupF f₂ l := by
  intro f₁
  induction f₁ with
  | zero =>
    intro l f₂ h₁ _
    have hl : l = [] := List.eq_nil_of_length_eq_zero (Nat.le_zero.mp h₁)
    subst hl
    cases f₂ <;> simp [firstDedupF]
  | succ g ih =>
    intro l f₂ h₁ h₂
    cases l with
    | nil => cases f₂ <;> simp [firstDedupF]
    | cons x xs =>
      cases f₂ with
      | zero => simp at h₂
      | succ g₂ =>
        simp only [firstDedupF, List.cons.injEq, true_and]
        have hf := List.length_filter_le (fun y => decide (¬ y = x)) xs
        simp only [List.length_cons] at h₁ h₂
        exact ih _ g₂ (by omega) (by omega)

theorem firstDedup_nil : firstDedup [] = [] := rfl

theorem firstDedup_cons (x : Str) (xs : List Str) :
    firstDedup (x :: xs) = x :: firstDedup (xs.filter fun y => decide (¬ y = x)) := by
  show firstDedupF (xs.length + 1) (x :: xs) = _
  simp only [firstDedupF, List.cons.injEq, true_and]
  exact firstDedupF_congr _ _ _ (List.length_filter_le _ xs) le_rfl

theorem mem_firstDedup : ∀ {l : List Str} {z : Str}, z ∈ firstDedup l → z ∈ l := by
  suffices H : ∀ (n : Nat) (l : List Str), l.length = n →
      ∀ z : Str, z ∈ firstDedup l → z ∈ l by
    intro l z
    exact H l.length l rfl z
  intro n
  induction n using Nat.strong_induction_on with
  | _ n ih =>
    intro l hn z hz
    cases l with
    | nil => simp [firstDedup_nil] at hz
    | cons x xs =>
      rw [firstDedup_cons] at hz
      rcases List.mem_cons.mp hz with rfl | hz'
      · exact List.mem_cons_self _ _
      · have hlen : (xs.filter fun y => decide (¬ y = x)).length < n := by
          have := List.length_filter_le (fun y => decide (¬ y = x)) xs
          simp only [List.length_cons] at hn
          omega
        have := ih _ hlen _ rfl z hz'
        exact List.mem_cons_of_mem x (List.mem_of_mem_filter this)

/-- Summing, over the deduplicated key list, the number of occurrences
of each key recovers the length of the original list. -/
theorem firstDedup_count_sum : ∀ (l : List Str),
    ((firstDedup l).map fun z => l.count z).sum = l.length := by
  suffices H : ∀ (n : Nat) (l : List Str), l.length = n →
      ((firstDedup l).map fun z => l.count z).sum = l.length by
    intro l
    exact H l.length l rfl
  intro n
  induction n using Nat.strong_induction_on with
  | _ n ih =>
    intro l hn
    cases l with
    | nil => simp [firstDedup_nil]
    | cons x xs =>
      rw [firstDedup_cons]
      simp only [List.map_cons, List.sum_cons]
      set xs' := xs.filter fun y => decide (¬ y = x) with hxs'
      have hlenle := List.length_filter_le (fun y => decide (¬ y = x)) xs
      have hlen : xs'.length < n := by
        simp only [List.length_cons] at hn
        simp only [hxs']
        omega
      have hrec := ih xs'.length hlen xs' rfl
      have hmapeq : (firstDedup xs').map (fun z => (x :: xs).count z)
          = (firstDedup xs').map (fun z => xs'.count z) := by
        apply List.map_congr_left
        intro z hz
        have hzmem : z ∈ xs' := mem_firstDedup hz
        have hzne : ¬ z = x := by
          have := List.of_mem_filter hzmem
          simpa using this
        rw [List.count_cons_of_ne hzne]
        rw [hxs']
        rw [List.count_filter (by simpa using hzne)]
      rw [hmapeq, hrec]
      have hsplit : xs'.length + xs.count x = xs.length := by
        have e1 : xs'.length = xs.countP (fun a => decide (¬ decide (a = x) = true)) := by
          rw [hxs', ← List.countP_eq_length_filter]
          congr 1
          funext y
          by_cases hy : y = x <;> simp [hy]
        have e2 : xs.count x = xs.countP (fun y => decide (y = x)) := by
          rw [List.count_eq_countP]
          congr 1
          funext y
          by_cases hy : y = x <;> simp [hy, beq_iff_eq]
        have e3 := List.length_eq_countP_add_countP (fun y => decide (y = x)) (l := xs)
        omega
      rw [List.count_cons_self]
      simp only [List.length_cons]
      omega

/-- Summing `(c / n) * 100` over a list of counts factors through the
sum of the counts. -/
theorem sum_map_pct (n : ℚ) : ∀ (ks : List Nat),
    (ks.map fun (c : Nat) => ((c : ℚ) / n) * 100).sum = ((ks.sum : ℚ) / n) * 100 := by
  intro ks
  induction ks with
  | nil => simp
  | cons c t ih =>
    rw [List.map_cons, List.sum_cons, ih, List.sum_cons, Nat.cast_add]
    ring

/-- The percentage sum, over all languages, is the declared-language
count over the total repository count (not over the declaring count). -/
theorem sumLanguagePercents_eq (repos : List Repo) :
    sumLanguagePercents repos
      = (((langsOf repos).length : ℚ) / (repos.length : ℚ)) * 100 := by
  have hperm : List.Perm (sortedLanguages repos) (langCounts repos) :=
    sortDesc_perm _ _
  have hsum : ((sortedLanguages repos).map fun p => percentOf repos p.2).sum
      = ((langCounts repos).map fun p => percentOf repos p.2).sum :=
    (hperm.map _).sum_eq
  have hmm : ((langCounts repos).map fun p => percentOf repos p.2)
      = ((firstDedup (langsOf repos)).map fun z => (langsOf repos).count z).map
          (fun (c : Nat) => ((c : ℚ) / (repos.length : ℚ)) * 100) := by
    rw [langCounts, List.map_map, List.map_map]
    apply List.map_congr_left
    intro z _
    simp [percentOf]
  have h0 : (orgLanguagePercents repos).map Prod.snd
      = (sortedLanguages repos).map fun p => percentOf repos p.2 := by
    rw [orgLanguagePercents, List.map_map]
    apply List.map_congr_left
    intro p _
    rfl
  calc sumLanguagePercents repos
      = ((sortedLanguages repos).map fun p => percentOf repos p.2).sum := by
        rw [sumLanguagePercents, h0]
    _ = ((langCounts repos).map fun p => percentOf repos p.2).sum := hsum
    _ = ((((firstDedup (langsOf repos)).map fun z => (langsOf repos).count z).sum : ℚ)
          / (repos.length : ℚ)) * 100 := by rw [hmm, sum_map_pct]
    _ = (((langsOf repos).length : ℚ) / (repos.length : ℚ)) * 100 := by
        rw [firstDedup_count_sum]

/-- When every repository declares a language, the filter keeps them
all. -/
theorem langsOf_length_of_all : ∀ (repos : List Repo),
    (∀ r ∈ repos, (declaredLang r).isSome = true) →
      (langsOf repos).length = repos.length := by
  intro repos
  induction repos with
  | nil => intro _; rfl
  | cons r rs ih =>
    intro h
    have hr : (declaredLang r).isSome = true := h r (List.mem_cons_self _ _)
    obtain ⟨l, hl⟩ := Option.isSome_iff_exists.mp hr
    simp only [langsOf, List.filterMap_cons, hl]
    simp only [langsOf] at ih
    rw [List.length_cons, List.length_cons,
      ih fun x hx => h x (List.mem_cons_of_mem r hx)]

/-! ### Lemmas about the replacement loop -/

/-- An absent marker is skipped silently. -/
theorem applyReplacement_skip {m content : Str} (r : Str)
    (h : occurs m content = false) : applyReplacement content (m, r) = content := by
  simp [applyReplacement, h]

/-- A present paired marker splices between the *first* occurrences of
the start and end markers. -/
theorem applyReplacement_paired {m content : Str} (r : Str) {si ei : Nat}
    (hm : isStartMarker m = true) (h1 : strFind m content = some si)
    (h2 : strFind (endMarkerOf m) content = some ei) :
    applyReplacement content (m, r) =
      content.take (si + m.length) ++ chars "\n" ++ r ++ chars "\n"
        ++ content.drop ei := by
  have hocc : occurs m content = true := by simp [occurs, h1]
  simp only [applyReplacement, hocc, if_pos, hm, if_true, h1, h2]

/-- The unpaired marker goes through `str.replace`: the first occurrence
is rewritten and the scan continues on the rest of the document. -/
theorem applyReplacement_unpaired {m content : Str} (r : Str) {i : Nat}
    (hm : isStartMarker m = false) (hne : m ≠ [])
    (h : strFind m content = some i) :
    applyReplacement content (m, r) =
      content.take i ++ r ++ replaceAll m r (content.drop (i + m.length)) := by
  have hocc : occurs m content = true := by simp [occurs, h]
  simp only [applyReplacement, hocc, if_true, hm, Bool.false_eq_true, if_false]
  exact replaceAll_split r hne content i h

theorem take_len_append (a rest : Str) : (a ++ rest).take a.length = a :=
  List.take_left a rest

theorem drop_len_append (a rest : Str) : (a ++ rest).drop a.length = rest :=
  List.drop_left a rest

/-- `update_readme` in one equation: formatting happens before the file
check, so a formatter exception aborts whether or not the file exists;
otherwise a missing file yields `(False, no write)` and an existing one
`(True, spliced document)`. -/
theorem runUpdate_eq (inp : RunInput) :
    runUpdate inp = match format_repository_activity (inp.nowUtc : Int) inp.repos with
      | .error e => .error e
      | .ok acts =>
        match inp.readme with
        | none => .ok (false, none)
        | some doc =>
          .ok (true, some (spliceContent acts
            (format_build_status inp.runsOf (inp.nowUtc : Int) inp.repos)
            (format_team_members inp.members)
            (format_active_repos inp.repos)
            (format_latest_releases inp.relOf (inp.nowUtc : Int) inp.repos)
            (format_org_languages inp.repos)
            (lastUpdatedValue inp.nowUtc inp.tzOffset) doc)) := by
  cases hA : format_repository_activity (inp.nowUtc : Int) inp.repos <;>
    simp [runUpdate, hA, Bind.bind, Except.bind]

/-- A present paired section keeps both its markers verbatim and only
the span strictly between them is replaced. -/
theorem paired_section_preserved {m : Str} (hm : isStartMarker m = true)
    (a b c r : Str)
    (h1 : strFind m (a ++ m ++ b ++ endMarkerOf m ++ c) = some a.length)
    (h2 : strFind (endMarkerOf m) (a ++ m ++ b ++ endMarkerOf m ++ c)
      = some (a.length + m.length + b.length)) :
    applyReplacement (a ++ m ++ b ++ endMarkerOf m ++ c) (m, r)
        = a ++ m ++ chars "\n" ++ r ++ chars "\n" ++ endMarkerOf m ++ c
      ∧ occurs m (a ++ m ++ chars "\n" ++ r ++ chars "\n" ++ endMarkerOf m ++ c) = true
      ∧ occurs (endMarkerOf m)
          (a ++ m ++ chars "\n" ++ r ++ chars "\n" ++ endMarkerOf m ++ c) = true := by
  refine ⟨?_, ?_, ?_⟩
  · rw [applyReplacement_paired r hm h1 h2]
    have htake : (a ++ m ++ b ++ endMarkerOf m ++ c).take (a.length + m.length)
        = a ++ m := by
      have hsh : a ++ m ++ b ++ endMarkerOf m ++ c
          = (a ++ m) ++ (b ++ (endMarkerOf m ++ c)) := by
        simp [List.append_assoc]
      rw [hsh, ← List.length_append, take_len_append]
    have hdrop : (a ++ m ++ b ++ endMarkerOf m ++ c).drop
        (a.length + m.length + b.length) = endMarkerOf m ++ c := by
      have hsh : a ++ m ++ b ++ endMarkerOf m ++ c
          = ((a ++ m) ++ b) ++ (endMarkerOf m ++ c) := by
        simp [List.append_assoc]
      have hlen : a.length + m.length + b.length = ((a ++ m) ++ b).length := by
        simp only [List.length_append]
      rw [hsh, hlen, drop_len_append]
    rw [htake, hdrop]
    simp [List.append_assoc]
  · have hsh : a ++ m ++ chars "\n" ++ r ++ chars "\n" ++ endMarkerOf m ++ c
        = a ++ m ++ (chars "\n" ++ r ++ chars "\n" ++ endMarkerOf m ++ c) := by
      simp [List.append_assoc]
    rw [hsh]
    exact occurs_mid m a _
  · have hsh : a ++ m ++ chars "\n" ++ r ++ chars "\n" ++ endMarkerOf m ++ c
        = (a ++ m ++ chars "\n" ++ r ++ chars "\n") ++ endMarkerOf m ++ c := by
      simp [List.append_assoc]
    rw [hsh]
    exact occurs_mid (endMarkerOf m) _ c

/-! ### The claims -/

/-- Claim C1, as stated, is false: the code divides each language's
count by `len(repos)` (all fetched repositories), so with two fetched
repositories of which only one declares a language the percentages sum
to 50, not to 100% of the declaring repositories. -/
theorem C1_counterexample :
    sumLanguagePercents [cxRepoPython, cxRepoNullLang] = 50 ∧ (50 : ℚ) ≠ 100 := by
  constructor
  · have hs : sortedLanguages [cxRepoPython, cxRepoNullLang]
        = [(chars "Python", 1)] := by decide
    rw [sumLanguagePercents, orgLanguagePercents, hs]
    norm_num [percentOf, List.length_cons]
  · norm_num

/-- Claim C1, amended: summed over all languages, the percentages equal
`100 × (declaring repositories) / (all fetched repositories)`, which is
100% exactly when every fetched repository declares a language. -/
theorem C1_amended_theorem : ∀ (repos : List Repo),
    sumLanguagePercents repos
        = (((langsOf repos).length : ℚ) / (repos.length : ℚ)) * 100
      ∧ ((∀ r ∈ repos, (declaredLang r).isSome = true) → repos ≠ [] →
          sumLanguagePercents repos = 100) := by
  intro repos
  refine ⟨sumLanguagePercents_eq repos, ?_⟩
  intro hall hne
  rw [sumLanguagePercents_eq repos, langsOf_length_of_all repos hall]
  have hlen : (repos.length : ℚ) ≠ 0 := by
    have : repos.length ≠ 0 := fun h0 => hne (List.eq_nil_of_length_eq_zero h0)
    exact_mod_cast this
  rw [div_self hlen, one_mul]

/-- Witness for the amended claim C1 at a concrete input. -/
theorem C1_witness : sumLanguagePercents [cxRepoPython] = 100 :=
  (C1_amended_theorem [cxRepoPython]).2 (by decide) (by decide)

/-- Claim C2: the replaced value is produced by
`datetime.now().strftime('%Y-%m-%d %H:%M:%S UTC')`; `datetime.now()` is
the local wall clock, so in a process whose timezone is two hours ahead
of UTC the marker is overwritten with the local time labelled `UTC`,
not with the current UTC time. -/
theorem C2_code_bug_eval :
    lastUpdatedValue 1791806400 7200 = chars "2026-10-12 14:00:00 UTC"
    ∧ fmtLastUpdated 1791806400 = chars "2026-10-12 12:00:00 UTC"
    ∧ lastUpdatedValue 1791806400 7200 ≠ fmtLastUpdated 1791806400
    ∧ spliceContent [] [] [] [] [] [] (lastUpdatedValue 1791806400 7200)
        (chars "ts: <!-- LAST_UPDATED -->.")
      = chars "ts: 2026-10-12 14:00:00 UTC." := by
  exact ⟨by decide, by decide, by decide, by decide⟩

/-- Claim C3, as stated, is false for the timestamp marker: the code
uses `str.replace`, which rewrites *every* occurrence, not only the
first.  On a document holding the marker twice, both are replaced. -/
theorem C3_counterexample :
    spliceContent [] [] [] [] [] [] (chars "TS") cxDocTwin = chars "TSxTS"
    ∧ spliceContent [] [] [] [] [] [] (chars "TS") cxDocTwin
        ≠ chars "TSx<!-- LAST_UPDATED -->" := by
  exact ⟨by decide, by decide⟩

/-- Claim C3, amended: matching is literal and case-sensitive (character
equality); an absent marker is skipped silently; each of the six paired
markers is replaced at the first occurrences of its start and end
markers only; but the timestamp marker is replaced at *every*
occurrence, the scan continuing past each replacement. -/
theorem C3_amended_theorem :
    (∀ (m r s : Str), occurs m s = false → applyReplacement s (m, r) = s)
    ∧ (∀ m ∈ pairedStartMarkers, ∀ (s r : Str) (si ei : Nat),
        strFind m s = some si → strFind (endMarkerOf m) s = some ei →
        applyReplacement s (m, r)
          = s.take (si + m.length) ++ chars "\n" ++ r ++ chars "\n" ++ s.drop ei)
    ∧ (∀ (s r : Str) (i : Nat), strFind mLAST s = some i →
        applyReplacement s (mLAST, r)
          = s.take i ++ r ++ replaceAll mLAST r (s.drop (i + mLAST.length))) := by
  refine ⟨?_, ?_, ?_⟩
  · intro m r s h
    exact applyReplacement_skip r h
  · intro m hm s r si ei h1 h2
    have hsm : isStartMarker m = true := by
      simp only [pairedStartMarkers, List.mem_cons, List.mem_singleton,
        List.not_mem_nil, or_false] at hm
      rcases hm with rfl | rfl | rfl | rfl | rfl | rfl <;> decide
    exact applyReplacement_paired r hsm h1 h2
  · intro s r i h
    exact applyReplacement_unpaired r (by decide) (by decide) h

/-- Witness for the amended claim C3 at concrete inputs. -/
theorem C3_witness :
    applyReplacement (chars "nothing here") (chars "<!-- X -->", chars "R")
        = chars "nothing here"
    ∧ applyReplacement (chars "a<!-- TEAM_MEMBERS:START -->b<!-- TEAM_MEMBERS:END -->c")
        (mTEAM, chars "R")
      = (chars "a<!-- TEAM_MEMBERS:START -->b<!-- TEAM_MEMBERS:END -->c").take
          (1 + mTEAM.length)
        ++ chars "\n" ++ chars "R" ++ chars "\n"
        ++ (chars "a<!-- TEAM_MEMBERS:START -->b<!-- TEAM_MEMBERS:END -->c").drop 29
    ∧ applyReplacement (chars "u<!-- LAST_UPDATED -->v") (mLAST, chars "T")
      = (chars "u<!-- LAST_UPDATED -->v").take 1 ++ chars "T"
        ++ replaceAll mLAST (chars "T")
            ((chars "u<!-- LAST_UPDATED -->v").drop (1 + mLAST.length)) :=
  ⟨C3_amended_theorem.1 (chars "<!-- X -->") (chars "R") (chars "nothing here")
      (by decide),
    C3_amended_theorem.2.1 mTEAM (by decide)
      (chars "a<!-- TEAM_MEMBERS:START -->b<!-- TEAM_MEMBERS:END -->c")
      (chars "R") 1 29 (by decide) (by decide),
    C3_amended_theorem.2.2 (chars "u<!-- LAST_UPDATED -->v") (chars "T") 1
      (by decide)⟩

/-- Claim C4, as stated, is false on ties: two releases published at
the same instant are rendered adjacently, so the output is not
*strictly* descending (the input here is also out of order: an older
release precedes a newer one). -/
theorem C4_counterexample :
    ((allReleases cxRelOf [cxRepoPython, cxRepoNullLang]).map fun rd =>
        rd.published_at)
      = [chars "2024-01-01T00:00:00Z", chars "2024-03-01T00:00:00Z",
          chars "2024-03-01T00:00:00Z"]
    ∧ strLt (chars "2024-01-01T00:00:00Z") (chars "2024-03-01T00:00:00Z") = true
    ∧ ¬ ((sortedReleases cxRelOf [cxRepoPython, cxRepoNullLang]).take 5).Pairwise
        (fun a b => strLt b.published_at a.published_at = true)
    ∧ ((sortedReleases cxRelOf [cxRepoPython, cxRepoNullLang]).take 5).map
        (fun rd => rd.tag) = [chars "v2", chars "v3", chars "v1"] := by
  exact ⟨by decide, by decide, by decide, by decide⟩

/-- Claim C4, amended: for every input, the rendered release entries
are descending (non-increasing, ties kept in stable input order) by
publish time, and at most 5 entries are rendered. -/
theorem C4_amended_theorem : ∀ (relOf : Str → List Release) (repos : List Repo),
    ((sortedReleases relOf repos).take 5).Pairwise
        (fun a b => strLe b.published_at a.published_at = true)
    ∧ ((sortedReleases relOf repos).take 5).length ≤ 5 := by
  intro relOf repos
  constructor
  · have hp : (sortedReleases relOf repos).Pairwise
        (fun a b => strLe b.published_at a.published_at = true) := by
      apply sortDesc_pairwise
      · intro a b
        exact strLe_total a.published_at b.published_at
      · intro a b c hab hbc
        exact strLe_trans _ _ _ hab hbc
    exact hp.sublist (List.take_sublist 5 _)
  · exact List.length_take_le 5 _

/-- Claim C5: descriptions longer than 80 characters are rendered as
exactly their first 80 characters followed by `...`; shorter ones are
rendered unmodified. -/
theorem C5_theorem : ∀ (d : Str),
    (80 < d.length →
      activityDescription d = d.take 80 ++ chars "..." ∧ (d.take 80).length = 80)
    ∧ (d.length ≤ 80 → activityDescription d = d) := by
  intro d
  constructor
  · intro h
    constructor
    · rw [activityDescription, if_pos h]
    · rw [List.length_take]
      omega
  · intro h
    rw [activityDescription, if_neg (by omega)]
    rw [List.take_of_length_le h, List.append_nil]

/-- Witness for claim C5 at an 81-character and a 5-character
description. -/
theorem C5_witness :
    (activityDescription cxLongDesc = cxLongDesc.take 80 ++ chars "..."
      ∧ (cxLongDesc.take 80).length = 80)
    ∧ activityDescription (chars "short") = chars "short" :=
  ⟨(C5_theorem cxLongDesc).1 (by decide), (C5_theorem (chars "short")).2 (by decide)⟩

/-- Claim C6: in all three bucketing sites a day difference of 0
renders "today", exactly 1 renders "yesterday", and 2 or more renders
"N days ago" (activity) or "Nd ago" (build and release variants); the
boundary between day 1 and day 2 is exact. -/
theorem C6_theorem : ∀ (n : Int),
    (n = 0 → timeAgoLong n = chars "today" ∧ timeAgoShort n = chars "today")
    ∧ (n = 1 → timeAgoLong n = chars "yesterday"
        ∧ timeAgoShort n = chars "yesterday")
    ∧ (2 ≤ n → timeAgoLong n = intToStr n ++ chars " days ago"
        ∧ timeAgoShort n = intToStr n ++ chars "d ago") := by
  intro n
  refine ⟨?_, ?_, ?_⟩
  · rintro rfl
    exact ⟨rfl, rfl⟩
  · rintro rfl
    exact ⟨rfl, rfl⟩
  · intro h
    have h0 : ¬ n = 0 := by omega
    have h1 : ¬ n = 1 := by omega
    rw [timeAgoLong, timeAgoShort, if_neg h0, if_neg h1, if_neg h0, if_neg h1]
    exact ⟨rfl, rfl⟩

/-- Witness for claim C6 at day differences 0, 1 and 2. -/
theorem C6_witness :
    (timeAgoLong 0 = chars "today" ∧ timeAgoShort 0 = chars "today")
    ∧ (timeAgoLong 1 = chars "yesterday" ∧ timeAgoShort 1 = chars "yesterday")
    ∧ (timeAgoLong 2 = intToStr 2 ++ chars " days ago"
        ∧ timeAgoShort 2 = intToStr 2 ++ chars "d ago") :=
  ⟨(C6_theorem 0).1 rfl, (C6_theorem 1).2.1 rfl, (C6_theorem 2).2.2 (by norm_num)⟩

/-- Claim C7: on an empty repository list each repository-taking
formatter returns its fixed non-empty fallback sentence and raises no
exception (for the one fallible formatter the result is `ok`). -/
theorem C7_theorem : ∀ (now : Int) (runsOf : Str → List WorkflowRun)
    (relOf : Str → List Release),
    format_repository_activity now [] = .ok (chars "No recent activity found.")
    ∧ format_build_status runsOf now [] = chars "No recent builds found."
    ∧ format_active_repos [] = chars "No repositories found."
    ∧ format_latest_releases relOf now [] = chars "No recent releases found."
    ∧ format_org_languages [] = chars "No language data available."
    ∧ chars "No recent activity found." ≠ []
    ∧ chars "No recent builds found." ≠ []
    ∧ chars "No repositories found." ≠ []
    ∧ chars "No recent releases found." ≠ []
    ∧ chars "No language data available." ≠ [] := by
  intro now runsOf relOf
  exact ⟨rfl, rfl, rfl, rfl, rfl, by decide, by decide, by decide, by decide,
    by decide⟩

/-- Claim C8: on a document holding the activity section and the
timestamp marker (first occurrences well-formed, the other five markers
absent throughout, the timestamp marker occurring once), only the
present markers are replaced, and every byte outside the two replaced
spans — the prefix `a`, the infix `c` and the suffix `d` — survives
verbatim. -/
theorem C8_theorem : ∀ (a b c d acts builds team actv rels langs ts : Str),
    strFind mACTIVITY (a ++ mACTIVITY ++ b ++ endMarkerOf mACTIVITY ++ c ++ mLAST ++ d)
        = some a.length →
    strFind (endMarkerOf mACTIVITY)
        (a ++ mACTIVITY ++ b ++ endMarkerOf mACTIVITY ++ c ++ mLAST ++ d)
      = some (a.length + mACTIVITY.length + b.length) →
    occurs mBUILD (a ++ mACTIVITY ++ chars "\n" ++ acts ++ chars "\n"
        ++ endMarkerOf mACTIVITY ++ c ++ mLAST ++ d) = false →
    occurs mTEAM (a ++ mACTIVITY ++ chars "\n" ++ acts ++ chars "\n"
        ++ endMarkerOf mACTIVITY ++ c ++ mLAST ++ d) = false →
    occurs mACTIVE (a ++ mACTIVITY ++ chars "\n" ++ acts ++ chars "\n"
        ++ endMarkerOf mACTIVITY ++ c ++ mLAST ++ d) = false →
    occurs mRELEASES (a ++ mACTIVITY ++ chars "\n" ++ acts ++ chars "\n"
        ++ endMarkerOf mACTIVITY ++ c ++ mLAST ++ d) = false →
    occurs mLANGUAGES (a ++ mACTIVITY ++ chars "\n" ++ acts ++ chars "\n"
        ++ endMarkerOf mACTIVITY ++ c ++ mLAST ++ d) = false →
    strFind mLAST (a ++ mACTIVITY ++ chars "\n" ++ acts ++ chars "\n"
        ++ endMarkerOf mACTIVITY ++ c ++ mLAST ++ d)
      = some ((a ++ mACTIVITY ++ chars "\n" ++ acts ++ chars "\n"
        ++ endMarkerOf mACTIVITY ++ c).length) →
    occurs mLAST d = false →
    spliceContent acts builds team actv rels langs ts
        (a ++ mACTIVITY ++ b ++ endMarkerOf mACTIVITY ++ c ++ mLAST ++ d)
      = a ++ mACTIVITY ++ chars "\n" ++ acts ++ chars "\n"
          ++ endMarkerOf mACTIVITY ++ c ++ ts ++ d := by
  intro a b c d acts builds team actv rels langs ts h1 h2 hB hT hA hR hL hLast hd
  have hshape : a ++ mACTIVITY ++ b ++ endMarkerOf mACTIVITY ++ c ++ mLAST ++ d
      = a ++ mACTIVITY ++ b ++ endMarkerOf mACTIVITY ++ (c ++ mLAST ++ d) := by
    simp [List.append_assoc]
  rw [hshape] at h1 h2 ⊢
  have hstep1 := (paired_section_preserved
    (m := mACTIVITY) (by decide) a b (c ++ mLAST ++ d) acts h1 h2).1
  have hflat : a ++ mACTIVITY ++ chars "\n" ++ acts ++ chars "\n"
      ++ endMarkerOf mACTIVITY ++ (c ++ mLAST ++ d)
      = a ++ mACTIVITY ++ chars "\n" ++ acts ++ chars "\n"
        ++ endMarkerOf mACTIVITY ++ c ++ mLAST ++ d := by
    simp [List.append_assoc]
  rw [hflat] at hstep1
  rw [spliceContent, replacementsList]
  simp only [List.foldl_cons, List.foldl_nil]
  rw [hstep1, applyReplacement_skip builds hB, applyReplacement_skip team hT,
    applyReplacement_skip actv hA, applyReplacement_skip rels hR,
    applyReplacement_skip langs hL]
  rw [applyReplacement_unpaired ts (by decide) (by decide) hLast]
  have hgroup : a ++ mACTIVITY ++ chars "\n" ++ acts ++ chars "\n"
      ++ endMarkerOf mACTIVITY ++ c ++ mLAST ++ d
      = (a ++ mACTIVITY ++ chars "\n" ++ acts ++ chars "\n"
        ++ endMarkerOf mACTIVITY ++ c) ++ (mLAST ++ d) := by
    simp [List.append_assoc]
  rw [hgroup, take_len_append]
  have hgroup2 : (a ++ mACTIVITY ++ chars "\n" ++ acts ++ chars "\n"
      ++ endMarkerOf mACTIVITY ++ c) ++ (mLAST ++ d)
      = ((a ++ mACTIVITY ++ chars "\n" ++ acts ++ chars "\n"
        ++ endMarkerOf mACTIVITY ++ c) ++ mLAST) ++ d := by
    simp [List.append_assoc]
  have hlen : (a ++ mACTIVITY ++ chars "\n" ++ acts ++ chars "\n"
      ++ endMarkerOf mACTIVITY ++ c).length + mLAST.length
      = ((a ++ mACTIVITY ++ chars "\n" ++ acts ++ chars "\n"
        ++ endMarkerOf mACTIVITY ++ c) ++ mLAST).length := by
    simp only [List.length_append]
  rw [hgroup2, hlen, drop_len_append, replaceAll_of_not_occurs ts hd]

/-- Witness for claim C8 on a small concrete document. -/
theorem C8_witness :
    spliceContent (chars "A") (chars "B") (chars "T") (chars "V") (chars "R")
        (chars "L") (chars "TS")
        (chars "# D\n" ++ mACTIVITY ++ chars "o" ++ endMarkerOf mACTIVITY
          ++ chars "\nmid " ++ mLAST ++ chars " end")
      = chars "# D\n" ++ mACTIVITY ++ chars "\n" ++ chars "A" ++ chars "\n"
          ++ endMarkerOf mACTIVITY ++ chars "\nmid " ++ chars "TS"
          ++ chars " end" :=
  C8_theorem (chars "# D\n") (chars "o") (chars "\nmid ") (chars " end")
    (chars "A") (chars "B") (chars "T") (chars "V") (chars "R") (chars "L")
    (chars "TS") (by decide) (by decide) (by decide) (by decide) (by decide)
    (by decide) (by decide) (by decide) (by decide)

/-- Claim C9, as stated, is false: the formatters run before the
document check and their exceptions are not caught, so a null
`description` field makes the process die with a nonzero (1) status
even though the document exists. -/
theorem C9_counterexample : exitCode cxBadInput = 1 ∧ cxBadInput.readme ≠ none := by
  exact ⟨by decide, by decide⟩

/-- Claim C9, amended: the process exits 0 exactly when the update
completes (the document exists and no exception is raised); a missing
document exits 1; but an uncaught exception (e.g. a null `description`)
also ends the process with status 1 while the document exists. -/
theorem C9_amended_theorem : ∀ (inp : RunInput),
    (inp.readme = none → exitCode inp = 1)
    ∧ (exitCode inp = 0 ↔ ∃ newDoc : Str, runUpdate inp = .ok (true, some newDoc)) := by
  intro inp
  constructor
  · intro h
    rcases hA : format_repository_activity (inp.nowUtc : Int) inp.repos with e | acts
    · have hr : runUpdate inp = .error e := by rw [runUpdate_eq, hA]
      simp [exitCode, hr]
    · have hr : runUpdate inp = .ok (false, none) := by rw [runUpdate_eq, hA, h]
      simp [exitCode, hr]
  · constructor
    · intro h0
      rcases hA : format_repository_activity (inp.nowUtc : Int) inp.repos with e | acts
      · have hr : runUpdate inp = .error e := by rw [runUpdate_eq, hA]
        simp [exitCode, hr] at h0
      · rcases hR : inp.readme with _ | doc
        · have hr : runUpdate inp = .ok (false, none) := by rw [runUpdate_eq, hA, hR]
          simp [exitCode, hr] at h0
        · exact ⟨_, by rw [runUpdate_eq, hA, hR]⟩
    · rintro ⟨newDoc, hnd⟩
      simp [exitCode, hnd]

/-- Witness for the amended claim C9: a run with no document exits 1. -/
theorem C9_witness : exitCode cxMissInput = 1 :=
  (C9_amended_theorem cxMissInput).1 rfl

/-- Claim C10: replacing a well-formed paired section keeps both the
start and end marker tokens verbatim — only the text strictly between
them changes — so both markers can be located again by a later run. -/
theorem C10_theorem : ∀ m ∈ pairedStartMarkers, ∀ (a b c r : Str),
    strFind m (a ++ m ++ b ++ endMarkerOf m ++ c) = some a.length →
    strFind (endMarkerOf m) (a ++ m ++ b ++ endMarkerOf m ++ c)
      = some (a.length + m.length + b.length) →
    applyReplacement (a ++ m ++ b ++ endMarkerOf m ++ c) (m, r)
        = a ++ m ++ chars "\n" ++ r ++ chars "\n" ++ endMarkerOf m ++ c
      ∧ occurs m (a ++ m ++ chars "\n" ++ r ++ chars "\n" ++ endMarkerOf m ++ c)
          = true
      ∧ occurs (endMarkerOf m)
          (a ++ m ++ chars "\n" ++ r ++ chars "\n" ++ endMarkerOf m ++ c) = true := by
  intro m hm a b c r h1 h2
  have hsm : isStartMarker m = true := by
    simp only [pairedStartMarkers, List.mem_cons, List.mem_singleton,
      List.not_mem_nil, or_false] at hm
    rcases hm with rfl | rfl | rfl | rfl | rfl | rfl <;> decide
  exact paired_section_preserved hsm a b c r h1 h2

/-- Witness for claim C10 on the languages section. -/
theorem C10_witness :
    applyReplacement (chars "x " ++ mLANGUAGES ++ chars " y "
        ++ endMarkerOf mLANGUAGES ++ chars " z") (mLANGUAGES, chars "Q")
      = chars "x " ++ mLANGUAGES ++ chars "\n" ++ chars "Q" ++ chars "\n"
          ++ endMarkerOf mLANGUAGES ++ chars " z"
    ∧ occurs mLANGUAGES (chars "x " ++ mLANGUAGES ++ chars "\n" ++ chars "Q"
        ++ chars "\n" ++ endMarkerOf mLANGUAGES ++ chars " z") = true
    ∧ occurs (endMarkerOf mLANGUAGES) (chars "x " ++ mLANGUAGES ++ chars "\n"
        ++ chars "Q" ++ chars "\n" ++ endMarkerOf mLANGUAGES ++ chars " z") = true :=
  C10_theorem mLANGUAGES (by decide) (chars "x ") (chars " y ") (chars " z")
    (chars "Q") (by decide) (by decide)

end Dashboard
